import Mathlib

/-!
ImHex YARA view (`source/views/view_yara.cpp`).

A shallow embedding of `hex::ViewYara`: the rule catalogue (`reloadRules`), the
block iterator handed to the matching engine (`first`, `next`, `fetch_data`,
`file_size`), the scan callback, and `applyRules`.

Conventions.
* `u64` values are natural numbers; every `u64` addition and subtraction of the
  source is written with an explicit `% 2 ^ 64`.
* The chunk cap `0xF'FFFF` of the source is the parameter `c` of the iterator
  functions; `chunkCap` is the value the source uses.
* Calls on the data provider are recorded in a list of `ProviderCall`.
* C++ undefined behaviour (an out-of-range `operator[]`, a dereferenced pointer
  that was never assigned) is the result `none`.
-/

namespace hex

/-! ## Constants of `yara.h` -/

/-- The status `ERROR_SUCCESS` of `yara.h`. -/
def ERROR_SUCCESS : Nat := 0

/-- The callback message `CALLBACK_MSG_RULE_MATCHING` of `yara.h`. -/
def CALLBACK_MSG_RULE_MATCHING : Nat := 1

/-- The callback return value `CALLBACK_CONTINUE` of `yara.h`. -/
def CALLBACK_CONTINUE : Nat := 0

/-- The chunk cap `0xF'FFFF` used by `fetch_data` and `iterator.next`. -/
def chunkCap : Nat := 0xFFFFF

/-! ## The data provider -/

/-- Modelled from the spec: the data provider (`hex/providers/provider.hpp` is
not among the sources). `getSize` is the stable size of the source and
`read offset length` is the list of bytes that one
`provider->read(offset, buffer, length)` call stores at the front of the
destination buffer; a provider that fails or under-delivers stores fewer than
`length` bytes. -/
structure Provider where
  getSize : Nat
  read : Nat → Nat → List Nat

/-- Modelled from the spec: a provider over fixed contents `data`, whose `read`
"must return exactly `length` bytes unless `offset+length > size()`, in which
case it returns the available remainder". -/
def Provider.ofBytes (data : List Nat) : Provider where
  getSize := data.length
  read := fun offset length => (data.drop offset).take length

/-- One call on the provider. -/
inductive ProviderCall where
  | getSize
  | read (offset length : Nat)
deriving DecidableEq, Repr

/-- The provider reads among a list of provider calls. -/
def ProviderCall.reads (calls : List ProviderCall) : List ProviderCall :=
  calls.filter fun call => decide (call ≠ ProviderCall.getSize)

/-! ## The scan context and the block iterator -/

/-- The fields `base` and `size` of YARA's `YR_MEMORY_BLOCK`. Its two other
members do not change during a scan: `fetch_data` is the lambda of lines 142-154,
and `context`, which no statement writes, is the parameter `blockContext` of
`fetch_data` below. -/
structure YR_MEMORY_BLOCK where
  base : Nat
  size : Nat
deriving DecidableEq, Repr

/-- The local `struct ScanContext` of `applyRules`. -/
structure ScanContext where
  buffer : List Nat
  currBlock : YR_MEMORY_BLOCK
deriving DecidableEq, Repr

/-- The mutable part of `YR_MEMORY_BLOCK_ITERATOR`: the scan context its
`context` pointer designates (line 159) and `last_error`. -/
structure YR_MEMORY_BLOCK_ITERATOR where
  context : ScanContext
  last_error : Nat
deriving DecidableEq, Repr

/-- What `fetch_data` finds in the `void *context` member of `currBlock`
(line 143). The source assigns `currBlock.base` and `currBlock.fetch_data`
(lines 141-142) and `iterator.context` (line 159), but no statement assigns
`currBlock.context`, so the member keeps the indeterminate value that the
`ScanContext`, default-initialised, starts with. `scanContext`: that value happens
to be the address of the scan context, which is what line 143 takes it to be;
`indeterminate`: it is anything else. -/
inductive BlockContext where
  | scanContext
  | indeterminate
deriving DecidableEq, Repr

/-- The outcome of one call made by the engine: the iterator state afterwards,
the provider calls issued, and the value returned (`none` is `nullptr`). -/
structure Call (α : Type) where
  iterator : YR_MEMORY_BLOCK_ITERATOR
  calls : List ProviderCall
  result : Option α
deriving DecidableEq, Repr

/-- The lambda `iterator.next` (lines 170-182). -/
def next (c : Nat) (p : Provider) (it : YR_MEMORY_BLOCK_ITERATOR) : Call YR_MEMORY_BLOCK :=
  let address := (it.context.currBlock.base + it.context.currBlock.size) % 2 ^ 64
  let size := min c ((p.getSize + 2 ^ 64 - address) % 2 ^ 64)
  let currBlock : YR_MEMORY_BLOCK := { base := address, size := size }
  { iterator := { context := { it.context with currBlock := currBlock },
                  last_error := ERROR_SUCCESS }
    calls := [ProviderCall.getSize]
    result := if size = 0 then none else some currBlock }

/-- The lambda `iterator.first` (lines 160-169). -/
def first (c : Nat) (p : Provider) (it : YR_MEMORY_BLOCK_ITERATOR) : Call YR_MEMORY_BLOCK :=
  next c p
    { it with
      context := { it.context with currBlock := { base := 0, size := 0 }, buffer := [] }
      last_error := ERROR_SUCCESS }

/-- The effect of `std::vector<u8>::resize(n)`. -/
def resize (buffer : List Nat) (n : Nat) : List Nat :=
  buffer.take n ++ List.replicate (n - buffer.length) 0

/-- The lambda `currBlock.fetch_data` (lines 142-154), called on the block
`currBlock` whose `context` member holds `blockContext`. The scan context it
works on is the one `block->context` designates; with an indeterminate pointer
the call has no defined behaviour (`none`). The value returned inside `Call` is
the content of the buffer whose address the lambda returns. -/
def fetch_data (c : Nat) (p : Provider) (blockContext : BlockContext)
    (it : YR_MEMORY_BLOCK_ITERATOR) : Option (Call (List Nat)) :=
  match blockContext with
  | BlockContext.indeterminate => none
  | BlockContext.scanContext =>
    let base := it.context.currBlock.base
    let n := min c ((p.getSize + 2 ^ 64 - base % 2 ^ 64) % 2 ^ 64)
    let resized := resize it.context.buffer n
    if n = 0 then
      some { iterator := { it with context := { it.context with buffer := resized } }
             calls := [ProviderCall.getSize]
             result := none }
    else
      let stored := (p.read base n).take n
      let buffer := stored ++ resized.drop stored.length
      some { iterator := { it with context := { it.context with buffer := buffer } }
             calls := [ProviderCall.getSize, ProviderCall.read base n]
             result := some buffer }

/-- The lambda `iterator.file_size` (lines 155-157). -/
def file_size (p : Provider) (it : YR_MEMORY_BLOCK_ITERATOR) : Call Nat :=
  { iterator := it, calls := [ProviderCall.getSize], result := some p.getSize }

/-- The iterator and its scan context as `applyRules` builds them before the scan
(lines 133-141 and 159): the buffer is empty, `currBlock.base` is 0, and
`currBlock.size` and `last_error` hold the indeterminate values they start
with. -/
def freshIterator (uninitSize uninitError : Nat) : YR_MEMORY_BLOCK_ITERATOR :=
  { context := { buffer := [], currBlock := { base := 0, size := uninitSize } }
    last_error := uninitError }

/-- A client of the iterator that keeps calling `next` while a block is returned,
at most `fuel` times; `none` when `fuel` calls did not reach the end. -/
def drain (c : Nat) (p : Provider) : Nat → Call YR_MEMORY_BLOCK → Option (List YR_MEMORY_BLOCK)
  | _, ⟨_, _, none⟩ => some []
  | 0, ⟨_, _, some _⟩ => none
  | fuel + 1, ⟨it, _, some b⟩ => (drain c p fuel (next c p it)).map (fun bs => b :: bs)

/-- The blocks yielded by calling `first` once and then `next` until it returns
no block. -/
def blocks (c : Nat) (p : Provider) (fuel : Nat) (it : YR_MEMORY_BLOCK_ITERATOR) :
    Option (List YR_MEMORY_BLOCK) :=
  drain c p fuel (first c p it)

/-- The iterator states in which the engine holds a block `b` yielded by
`first` or `next`: `first` may be called in any state, `next` after a block was
yielded, and fetching the data of the current block keeps it current. -/
inductive Yielded (c : Nat) (p : Provider) (blockContext : BlockContext) :
    YR_MEMORY_BLOCK_ITERATOR → YR_MEMORY_BLOCK → Prop where
  | first (it : YR_MEMORY_BLOCK_ITERATOR) (b : YR_MEMORY_BLOCK) :
      (first c p it).result = some b → Yielded c p blockContext (first c p it).iterator b
  | next (it : YR_MEMORY_BLOCK_ITERATOR) (b0 b : YR_MEMORY_BLOCK) :
      Yielded c p blockContext it b0 → (next c p it).result = some b →
      Yielded c p blockContext (next c p it).iterator b
  | fetch (it : YR_MEMORY_BLOCK_ITERATOR) (b : YR_MEMORY_BLOCK) (r : Call (List Nat)) :
      Yielded c p blockContext it b → fetch_data c p blockContext it = some r →
      Yielded c p blockContext r.iterator b

/-! ## The view -/

/-- Modelled from the spec: the record `YaraMatch` (`views/view_yara.hpp` is not
among the sources): "Match: { rule_identifier: string, offset: u64, length: u64 }";
`drawContent` (line 66) reads its three members as `identifier`, `address`
and `size`. -/
structure YaraMatch where
  identifier : String
  address : Nat
  size : Nat
deriving DecidableEq, Repr

/-- Modelled from the spec: the data members of `ViewYara` used by the source
(`views/view_yara.hpp` is not among the sources): the rule list, the index of the
selected rule and the match list. -/
structure ViewYara where
  m_rules : List String
  m_selectedRule : Nat
  m_matches : List YaraMatch
deriving DecidableEq, Repr

/-! ## The rule catalogue -/

/-- A `std::filesystem::directory_entry`: its path and whether it is a regular
file. -/
structure directory_entry where
  path : String
  is_regular_file : Bool
deriving DecidableEq, Repr

/-- The part of the filesystem that `reloadRules` looks at: whether `./yara`
exists, the entries that iterating over `yara` yields, in enumeration order, and
whether that iteration ends by throwing (`yara` is not a directory, or cannot be
read) instead of reaching the end. -/
structure Filesystem where
  yaraExists : Bool
  entries : List directory_entry
  iterationThrows : Bool
deriving DecidableEq, Repr

/-- The outcome of `reloadRules`: the view afterwards and whether the call left
by an exception of `std::filesystem`. -/
structure Reloaded where
  view : ViewYara
  threw : Bool
deriving DecidableEq, Repr

/-- The method `ViewYara::reloadRules` (lines 97-107). -/
def reloadRules (fs : Filesystem) (v : ViewYara) : Reloaded :=
  let v := { v with m_rules := [] }
  if !fs.yaraExists then
    { view := v, threw := false }
  else
    { view := fs.entries.foldl
        (fun v entry =>
          if entry.is_regular_file then { v with m_rules := v.m_rules ++ [entry.path] } else v)
        v
      threw := fs.iterationThrows }

/-- Modelled from the spec: the constructor `ViewYara::ViewYara()` (lines 11-15)
runs `reloadRules` on the freshly built members; their initial values are in
`views/view_yara.hpp`, which is not among the sources: the lists start empty and
the selection starts at the first rule. -/
def construct (fs : Filesystem) : Reloaded :=
  reloadRules fs { m_rules := [], m_selectedRule := 0, m_matches := [] }

/-- The states of the view reachable from construction by `reloadRules` calls
(each on the filesystem as it is at that time) and by selections made in the
combo box of `drawContent` (lines 33-36), which assigns `m_selectedRule = i` for
an `i < m_rules.size()`. -/
inductive Reachable : ViewYara → Prop where
  | construct (fs : Filesystem) : Reachable (construct fs).view
  | reload (fs : Filesystem) (v : ViewYara) : Reachable v → Reachable (reloadRules fs v).view
  | select (v : ViewYara) (i : Nat) : Reachable v → i < v.m_rules.length →
      Reachable { v with m_selectedRule := i }

/-! ## The scan -/

/-- The fields of YARA's `YR_MATCH` the engine fills for one match: `base` is the
base address of the block the match was found in, `offset` the position of the
match relative to `base`, and `match_length` its length. -/
structure YR_MATCH where
  base : Nat
  offset : Nat
  match_length : Nat
deriving DecidableEq, Repr

/-- A `YR_STRING` with the matches `yr_string_matches_foreach` enumerates. -/
structure YR_STRING where
  scanMatches : List YR_MATCH
deriving DecidableEq, Repr

/-- A `YR_RULE`: its identifier and the strings `yr_rule_strings_foreach`
enumerates. -/
structure YR_RULE where
  identifier : String
  strings : List YR_STRING
deriving DecidableEq, Repr

/-- The scan callback passed to `yr_rules_scan_mem_blocks` (lines 185-200): the
new content of `newMatches` and the value returned to the engine. -/
def scanCallback (message : Nat) (rule : YR_RULE) (newMatches : List YaraMatch) :
    List YaraMatch × Nat :=
  if message = CALLBACK_MSG_RULE_MATCHING then
    (rule.strings.foldl
      (fun acc string =>
        string.scanMatches.foldl
          (fun acc m => acc ++ [{ identifier := rule.identifier, address := m.offset,
                                  size := m.match_length }])
          acc)
      newMatches,
     CALLBACK_CONTINUE)
  else
    (newMatches, CALLBACK_CONTINUE)

/-- One call the engine makes while `yr_rules_scan_mem_blocks` runs: on the
iterator, on the current block, or on the scan callback. -/
inductive EngineCall where
  | first
  | next
  | fetch_data
  | file_size
  | callback (message : Nat) (rule : YR_RULE)
deriving DecidableEq, Repr

/-- The state the engine's calls act on: the iterator with its scan context, the
vector `newMatches`, and the provider calls issued so far. -/
structure ScanState where
  iterator : YR_MEMORY_BLOCK_ITERATOR
  newMatches : List YaraMatch
  calls : List ProviderCall
deriving DecidableEq, Repr

/-- The effect of one engine call; `none` when the call has no defined
behaviour. -/
def engineStep (c : Nat) (p : Provider) (blockContext : BlockContext) (st : ScanState) :
    EngineCall → Option ScanState
  | EngineCall.first =>
    let r := first c p st.iterator
    some { st with iterator := r.iterator, calls := st.calls ++ r.calls }
  | EngineCall.next =>
    let r := next c p st.iterator
    some { st with iterator := r.iterator, calls := st.calls ++ r.calls }
  | EngineCall.fetch_data =>
    (fetch_data c p blockContext st.iterator).map fun r =>
      { st with iterator := r.iterator, calls := st.calls ++ r.calls }
  | EngineCall.file_size =>
    let r := file_size p st.iterator
    some { st with iterator := r.iterator, calls := st.calls ++ r.calls }
  | EngineCall.callback message rule =>
    some { st with newMatches := (scanCallback message rule st.newMatches).1 }

/-- The run of `yr_rules_scan_mem_blocks`: the engine is external, and a run of it
is the sequence of calls it makes on the iterator and the callback. -/
def yr_rules_scan_mem_blocks (c : Nat) (p : Provider) (blockContext : BlockContext) :
    List EngineCall → ScanState → Option ScanState
  | [], st => some st
  | call :: rest, st =>
    match engineStep c p blockContext st call with
    | none => none
    | some st => yr_rules_scan_mem_blocks c p blockContext rest st

/-- What `applyRules` meets outside the view: whether `fopen` opens a path,
the number of errors `yr_compiler_add_file` returns for it, the current provider,
the indeterminate values the default-initialised scan objects start with
(`currBlock.size`, `currBlock.context`, `iterator.last_error`), the calls the
engine makes during the scan, and the status the scan returns. -/
structure Env where
  fopen : String → Bool
  yr_compiler_add_file : String → Nat
  provider : Provider
  uninitSize : Nat
  uninitError : Nat
  blockContext : BlockContext
  engine : List EngineCall
  scanResult : Nat

/-- The outcome of `applyRules`: the view afterwards, the provider calls issued,
and whether `yr_rules_scan_mem_blocks` was entered. -/
structure Applied where
  view : ViewYara
  calls : List ProviderCall
  scanned : Bool
deriving DecidableEq, Repr

/-- The method `ViewYara::applyRules` (lines 109-205). The result is `none` when
the run has no defined behaviour: `m_rules[m_selectedRule]` out of range, or a
`fetch_data` call through an indeterminate `currBlock.context`. The status
returned by `yr_rules_scan_mem_blocks` is not looked at by the source. -/
def applyRules (c : Nat) (env : Env) (v : ViewYara) : Option Applied :=
  let v := { v with m_matches := [] }
  match v.m_rules[v.m_selectedRule]? with
  | none => none
  | some path =>
    if !env.fopen path then
      some { view := v, calls := [], scanned := false }
    else if env.yr_compiler_add_file path ≠ 0 then
      some { view := v, calls := [], scanned := false }
    else
      match yr_rules_scan_mem_blocks c env.provider env.blockContext env.engine
          { iterator := freshIterator env.uninitSize env.uninitError
            newMatches := []
            calls := [] } with
      | none => none
      | some st =>
        some { view := { v with m_matches := v.m_matches ++ st.newMatches }
               calls := st.calls
               scanned := true }

/-- The matches the engine reports during a run, as the spec words them: the
`(rule identifier, offset, length)` tuples in report order (per matching rule,
its strings in order, each string's matches in order). -/
def reported : List EngineCall → List YaraMatch
  | [] => []
  | EngineCall.callback message rule :: rest =>
    (if message = CALLBACK_MSG_RULE_MATCHING then
      rule.strings.flatMap fun string =>
        string.scanMatches.map fun m =>
          { identifier := rule.identifier, address := m.offset, size := m.match_length }
     else []) ++ reported rest
  | _ :: rest => reported rest

/-- The windows of a source of size `s` under cap `c`, as the spec words them:
`ceil(s / c)` blocks, the `i`-th one with base `i * c` and length
`min(c, s - i * c)`. -/
def windows (c s : Nat) : List YR_MEMORY_BLOCK :=
  (List.range ((s + c - 1) / c)).map fun i => { base := i * c, size := min c (s - i * c) }

/-! ## Example inputs -/

/-- The 10-byte source `"AAABBBAAAB"`. -/
def sourceAAAB : List Nat := [65, 65, 65, 66, 66, 66, 65, 65, 65, 66]

/-- A view with one rule file, selected, and a match left by an earlier scan. -/
def exampleView : ViewYara :=
  { m_rules := ["yara/a.yar"], m_selectedRule := 0,
    m_matches := [{ identifier := "old", address := 1, size := 1 }] }

/-- An environment in which every rule file opens and compiles. -/
def exampleEnv (provider : Provider) (blockContext : BlockContext) (engine : List EngineCall)
    (scanResult : Nat) : Env :=
  { fopen := fun _ => true
    yr_compiler_add_file := fun _ => 0
    provider := provider
    uninitSize := 0
    uninitError := 0
    blockContext := blockContext
    engine := engine
    scanResult := scanResult }

/-- An environment in which the rule file opens and `yr_compiler_add_file` reports
one error. -/
def compileFailureEnv : Env :=
  { exampleEnv (Provider.ofBytes sourceAAAB) BlockContext.scanContext
      [EngineCall.first, EngineCall.fetch_data] 0 with
    yr_compiler_add_file := fun _ => 1 }

/-- A provider of `0x100003` bytes whose reads deliver the requested bytes in the
first block and nothing at any other offset. -/
def failingProvider : Provider :=
  { getSize := 0x100003
    read := fun offset length => if offset = 0 then List.replicate length 65 else [] }

/-- A run of the engine over two blocks that reports one match after the first
block. -/
def twoBlockRun : List EngineCall :=
  [EngineCall.first, EngineCall.fetch_data,
   EngineCall.callback CALLBACK_MSG_RULE_MATCHING
     { identifier := "r", strings := [{ scanMatches := [{ base := 0, offset := 0, match_length := 3 }] }] },
   EngineCall.next, EngineCall.fetch_data]

/-- A run of the engine that reports one match and never fetches block data. -/
def noFetchRun : List EngineCall :=
  [EngineCall.first,
   EngineCall.callback CALLBACK_MSG_RULE_MATCHING
     { identifier := "r", strings := [{ scanMatches := [{ base := 0, offset := 0, match_length := 3 }] }] },
   EngineCall.next]

/-- The run of the spec's scenario over `"AAABBBAAAB"` with cap 4: three blocks,
then the rule `"AAA"` reported with a match in the block of base 0 at relative
position 0 and a match in the block of base 4 at relative position 2. -/
def scenarioRun : List EngineCall :=
  [EngineCall.first, EngineCall.fetch_data, EngineCall.next, EngineCall.fetch_data,
   EngineCall.next, EngineCall.fetch_data, EngineCall.next,
   EngineCall.callback CALLBACK_MSG_RULE_MATCHING
     { identifier := "AAA"
       strings := [{ scanMatches := [{ base := 0, offset := 0, match_length := 3 },
                                     { base := 4, offset := 2, match_length := 3 }] }] }]

/-- A run that reports `("ruleA", 10, 4)` and then `("ruleB", 2, 8)`. -/
def ruleABRun : List EngineCall :=
  [EngineCall.first, EngineCall.fetch_data,
   EngineCall.callback CALLBACK_MSG_RULE_MATCHING
     { identifier := "ruleA", strings := [{ scanMatches := [{ base := 0, offset := 10, match_length := 4 }] }] },
   EngineCall.callback CALLBACK_MSG_RULE_MATCHING
     { identifier := "ruleB", strings := [{ scanMatches := [{ base := 0, offset := 2, match_length := 8 }] }] },
   EngineCall.next]

/-- A `yara` directory with two rule files. -/
def twoRules : Filesystem :=
  { yaraExists := true
    entries := [{ path := "yara/a.yar", is_regular_file := true },
                { path := "yara/b.yar", is_regular_file := true }]
    iterationThrows := false }

/-- The same directory after `yara/b.yar` was removed. -/
def oneRule : Filesystem :=
  { yaraExists := true
    entries := [{ path := "yara/a.yar", is_regular_file := true }]
    iterationThrows := false }

/-! ## The block iterator: lemmas -/

/-- While the cursor has not passed the end of the source, no `u64` operation of
`next` wraps around: the new block starts at `base + size` and its size is the
smaller of the cap and what is left. -/
theorem next_of_le (c : Nat) (p : Provider) (it : YR_MEMORY_BLOCK_ITERATOR)
    (hs : p.getSize < 2 ^ 64)
    (h : it.context.currBlock.base + it.context.currBlock.size ≤ p.getSize) :
    next c p it =
      { iterator :=
          { context :=
              { buffer := it.context.buffer
                currBlock :=
                  { base := it.context.currBlock.base + it.context.currBlock.size
                    size := min c (p.getSize -
                      (it.context.currBlock.base + it.context.currBlock.size)) } }
            last_error := ERROR_SUCCESS }
        calls := [ProviderCall.getSize]
        result :=
          if min c (p.getSize - (it.context.currBlock.base + it.context.currBlock.size)) = 0
          then none
          else some
            { base := it.context.currBlock.base + it.context.currBlock.size
              size := min c (p.getSize -
                (it.context.currBlock.base + it.context.currBlock.size)) } } := by
  have h1 : (it.context.currBlock.base + it.context.currBlock.size) % 2 ^ 64 =
      it.context.currBlock.base + it.context.currBlock.size :=
    Nat.mod_eq_of_lt (lt_of_le_of_lt h hs)
  have h2 : (p.getSize + 2 ^ 64 - (it.context.currBlock.base + it.context.currBlock.size))
      % 2 ^ 64 = p.getSize - (it.context.currBlock.base + it.context.currBlock.size) := by
    omega
  simp only [next, h1, h2]

/-- The outcome of `first` in closed form. -/
theorem first_eq (c : Nat) (p : Provider) (it : YR_MEMORY_BLOCK_ITERATOR)
    (hs : p.getSize < 2 ^ 64) :
    first c p it =
      { iterator :=
          { context := { buffer := [], currBlock := { base := 0, size := min c p.getSize } }
            last_error := ERROR_SUCCESS }
        calls := [ProviderCall.getSize]
        result :=
          if min c p.getSize = 0 then none else some { base := 0, size := min c p.getSize } } := by
  unfold first
  rw [next_of_le c p _ hs (by simp)]
  simp

/-- The number of windows left from address `a` drops by one when a full window
is consumed. -/
theorem windows_step (c s a n : Nat) (hc : 0 < c) (ha : a < s)
    (hn : (s - a + c - 1) / c = n + 1) :
    (s - (a + min c (s - a)) + c - 1) / c = n := by
  by_cases hfull : c ≤ s - a
  · have hmin : min c (s - a) = c := min_eq_left hfull
    have hx : s - a + c - 1 = (s - (a + c) + c - 1) + c := by omega
    rw [hx, Nat.add_div_right _ hc] at hn
    rw [hmin]
    omega
  · have hmin : min c (s - a) = s - a := min_eq_right (by omega)
    have hlt : (s - a + c - 1) / c < 2 := by
      rw [Nat.div_lt_iff_lt_mul hc]
      omega
    have hzero : (s - (a + (s - a)) + c - 1) / c = 0 := by
      apply Nat.div_eq_of_lt
      omega
    rw [hmin, hzero]
    omega

/-- No window is left exactly when the cursor is at the end. -/
theorem windows_zero (c s a : Nat) (hc : 0 < c) (ha : a ≤ s)
    (hn : (s - a + c - 1) / c = 0) : a = s := by
  have h := (Nat.div_eq_zero_iff hc).mp hn
  omega

/-- Calling `next` to exhaustion from a cursor that ends at `a` yields the
windows `a, a + c, a + 2c, ...` of the rest of the source. -/
theorem drain_next (c : Nat) (p : Provider) (hc : 0 < c) (hs : p.getSize < 2 ^ 64) :
    ∀ (n fuel : Nat) (it : YR_MEMORY_BLOCK_ITERATOR),
      it.context.currBlock.base + it.context.currBlock.size ≤ p.getSize →
      (p.getSize - (it.context.currBlock.base + it.context.currBlock.size) + c - 1) / c = n →
      n ≤ fuel →
      drain c p fuel (next c p it) =
        some ((List.range n).map fun i =>
          { base := it.context.currBlock.base + it.context.currBlock.size + i * c
            size := min c (p.getSize -
              (it.context.currBlock.base + it.context.currBlock.size + i * c)) }) := by
  intro n
  induction n with
  | zero =>
    intro fuel it hle hn _
    have hend := windows_zero c p.getSize _ hc hle hn
    rw [next_of_le c p it hs hle, hend]
    cases fuel <;> simp [drain]
  | succ n ih =>
    intro fuel it hle hn hfuel
    obtain ⟨fuel, rfl⟩ : ∃ k, fuel = k + 1 := ⟨fuel - 1, by omega⟩
    have hlt : it.context.currBlock.base + it.context.currBlock.size < p.getSize := by
      rcases Nat.lt_or_ge (it.context.currBlock.base + it.context.currBlock.size) p.getSize
        with h | h
      · exact h
      · have h0 : (p.getSize - (it.context.currBlock.base + it.context.currBlock.size) + c - 1)
            / c = 0 := by
          apply Nat.div_eq_of_lt
          omega
        omega
    have hpos : min c (p.getSize - (it.context.currBlock.base + it.context.currBlock.size)) ≠ 0 := by
      omega
    have hstep := windows_step c p.getSize _ n hc hlt hn
    rw [next_of_le c p it hs hle]
    simp only [hpos, if_false, drain]
    rw [ih fuel _ (by simp only; omega) (by simpa using hstep) (by omega)]
    simp only [Option.map_some', List.range_succ_eq_map, List.map_cons, List.map_map]
    congr 2
    · simp
    · apply List.map_congr_left
      intro i hi
      simp only [Function.comp]
      by_cases hfull : c ≤ p.getSize - (it.context.currBlock.base + it.context.currBlock.size)
      · have hmin : min c (p.getSize - (it.context.currBlock.base + it.context.currBlock.size))
            = c := min_eq_left hfull
        rw [hmin]
        have : it.context.currBlock.base + it.context.currBlock.size + c + i * c =
            it.context.currBlock.base + it.context.currBlock.size + (i + 1) * c := by ring
        rw [this]
      · exfalso
        have hmin : min c (p.getSize - (it.context.currBlock.base + it.context.currBlock.size))
            = p.getSize - (it.context.currBlock.base + it.context.currBlock.size) :=
          min_eq_right (by omega)
        rw [hmin] at hstep
        have hzero : (p.getSize - (it.context.currBlock.base + it.context.currBlock.size +
            (p.getSize - (it.context.currBlock.base + it.context.currBlock.size))) + c - 1) / c
            = 0 := by
          apply Nat.div_eq_of_lt
          omega
        rw [hzero] at hstep
        subst hstep
        simp at hi

/-- The sizes of the windows from address `a` on add up to what is left of the
source. -/
theorem windows_sum (c s : Nat) (hc : 0 < c) :
    ∀ (n a : Nat), a ≤ s → (s - a + c - 1) / c = n →
      ((List.range n).map fun i => min c (s - (a + i * c))).sum = s - a := by
  intro n
  induction n with
  | zero =>
    intro a ha hn
    have := windows_zero c s a hc ha hn
    simp [this]
  | succ n ih =>
    intro a ha hn
    have hlt : a < s := by
      rcases Nat.lt_or_ge a s with h | h
      · exact h
      · have h0 : (s - a + c - 1) / c = 0 := by
          apply Nat.div_eq_of_lt
          omega
        omega
    have hstep := windows_step c s a n hc hlt hn
    have hrec := ih (a + min c (s - a)) (by omega) hstep
    rw [List.range_succ_eq_map, List.map_cons, List.map_map, List.sum_cons]
    have htail : (List.map ((fun i => min c (s - (a + i * c))) ∘ Nat.succ) (List.range n)) =
        (List.range n).map fun i => min c (s - (a + min c (s - a) + i * c)) := by
      apply List.map_congr_left
      intro i hi
      simp only [Function.comp]
      by_cases hfull : c ≤ s - a
      · rw [min_eq_left hfull]
        have : a + Nat.succ i * c = a + c + i * c := by
          rw [Nat.succ_mul]; omega
        rw [this]
      · exfalso
        rw [min_eq_right (by omega : s - a ≤ c)] at hstep
        have hzero : (s - (a + (s - a)) + c - 1) / c = 0 := by
          apply Nat.div_eq_of_lt
          omega
        rw [hzero] at hstep
        subst hstep
        simp at hi
    rw [htail, hrec]
    simp only [Nat.zero_mul, Nat.add_zero]
    omega

/-- Every window index below the number of windows starts inside the source. -/
theorem window_start_lt (c s i : Nat) (hc : 0 < c) (hi : i < (s + c - 1) / c) : i * c < s := by
  have h : (i + 1) * c ≤ s + c - 1 := (Nat.le_div_iff_mul_le hc).mp hi
  rw [Nat.add_mul, Nat.one_mul] at h
  omega

/-- The size of the last window is the remainder of the source size by the cap,
or the cap when that remainder is 0. -/
theorem last_window_size (c s : Nat) (hc : 0 < c) (hs : 0 < s) :
    min c (s - ((s + c - 1) / c - 1) * c) = if s % c = 0 then c else s % c := by
  have hdm : c * (s / c) + s % c = s := Nat.div_add_mod s c
  have hr : s % c < c := Nat.mod_lt s hc
  by_cases h0 : s % c = 0
  · have hq : (s + c - 1) / c = s / c := by
      have hx : s + c - 1 = c - 1 + c * (s / c) := by omega
      rw [hx, Nat.add_mul_div_left _ _ hc, Nat.div_eq_of_lt (by omega)]
      omega
    have hqpos : 0 < s / c := by
      rcases Nat.eq_zero_or_pos (s / c) with h | h
      · rw [h] at hdm; omega
      · exact h
    have hmul : (s / c - 1) * c = c * (s / c) - c := by
      rw [Nat.sub_mul, Nat.one_mul, Nat.mul_comm]
    have hge : c ≤ c * (s / c) := Nat.le_mul_of_pos_right c hqpos
    rw [hq, hmul, if_pos h0]
    omega
  · have hq : (s + c - 1) / c = s / c + 1 := by
      have hx : s + c - 1 = (s % c - 1) + c * (s / c) + c := by omega
      rw [hx, Nat.add_div_right _ hc, Nat.add_mul_div_left _ _ hc, Nat.div_eq_of_lt (by omega)]
      omega
    have hmul : (s / c + 1 - 1) * c = c * (s / c) := by
      rw [Nat.add_sub_cancel, Nat.mul_comm]
    rw [hq, hmul, if_neg h0]
    omega

/-- C1: over a source of stable size `s = p.getSize` and with cap `c > 0`, calling
`first` once (in any iterator state) and then `next` until it returns no block
yields, within any fuel of at least `ceil(s / c)` further calls, exactly the
`ceil(s / c)` blocks `windows c s`, the `i`-th with base `i * c` and length
`min(c, s - i * c)`; every yielded length is non-zero, the last length is
`s mod c` (or `c` when `c` divides `s`), the lengths add up to `s`, and for
`s = 0` the call of `first` yields no block. -/
theorem blocks_eq_windows (c : Nat) (p : Provider) (it : YR_MEMORY_BLOCK_ITERATOR)
    (fuel : Nat) (hc : 0 < c) (hs : p.getSize < 2 ^ 64)
    (hfuel : (p.getSize + c - 1) / c ≤ fuel) :
    blocks c p fuel it = some (windows c p.getSize) ∧
    (windows c p.getSize).length = (p.getSize + c - 1) / c ∧
    (∀ i, i < (p.getSize + c - 1) / c →
      (windows c p.getSize)[i]? = some { base := i * c, size := min c (p.getSize - i * c) }) ∧
    (∀ b ∈ windows c p.getSize, b.size ≠ 0) ∧
    (∀ b, (windows c p.getSize).getLast? = some b →
      b.size = if p.getSize % c = 0 then c else p.getSize % c) ∧
    ((windows c p.getSize).map fun b => b.size).sum = p.getSize ∧
    (p.getSize = 0 → (first c p it).result = none) := by
  refine ⟨?_, ?_, ?_, ?_, ?_, ?_, ?_⟩
  · have h := drain_next c p hc hs ((p.getSize + c - 1) / c) fuel
      { it with
        context := { it.context with currBlock := { base := 0, size := 0 }, buffer := [] }
        last_error := ERROR_SUCCESS }
      (by simp) (by simp) hfuel
    simpa [blocks, first, windows] using h
  · simp [windows]
  · intro i hi
    simp [windows, List.getElem?_range hi]
  · intro b hb
    simp only [windows, List.mem_map, List.mem_range] at hb
    obtain ⟨i, hi, rfl⟩ := hb
    have := window_start_lt c p.getSize i hc hi
    simp only
    omega
  · intro b hb
    rw [List.getLast?_eq_getElem?] at hb
    simp only [windows, List.length_map, List.length_range, List.getElem?_map] at hb
    rcases Nat.eq_zero_or_pos p.getSize with h0 | hpos
    · have hn : (p.getSize + c - 1) / c = 0 := by
        apply Nat.div_eq_of_lt
        omega
      simp [hn] at hb
    · have hn : 0 < (p.getSize + c - 1) / c := by
        apply Nat.div_pos
        · omega
        · exact hc
      rw [List.getElem?_range (by omega)] at hb
      simp only [Option.map_some', Option.some.injEq] at hb
      subst hb
      exact last_window_size c p.getSize hc hpos
  · have h := windows_sum c p.getSize hc ((p.getSize + c - 1) / c) 0 (Nat.zero_le _) (by simp)
    simpa [windows, Function.comp] using h
  · intro h0
    rw [first_eq c p it hs]
    simp [h0]

/-- C1, at a concrete input: the 10-byte source with cap 4 yields the blocks
`(0, 4)`, `(4, 4)` and `(8, 2)`. -/
theorem blocks_eq_windows_witness :
    blocks 4 (Provider.ofBytes [65, 65, 65, 66, 66, 66, 65, 65, 65, 66]) 3 (freshIterator 9 1) =
      some [{ base := 0, size := 4 }, { base := 4, size := 4 }, { base := 8, size := 2 }] :=
  (blocks_eq_windows 4 (Provider.ofBytes [65, 65, 65, 66, 66, 66, 65, 65, 65, 66])
    (freshIterator 9 1) 3 (by decide) (by simp [Provider.ofBytes]) (by decide)).1.trans
    (by decide)

/-- C7: from every iterator state `it` (any base, any size, any buffer content,
any `last_error`), over a source of stable size `s = p.getSize` and with cap
`c > 0`, `first` gives the same outcome as `first` on the freshly built iterator
of `applyRules`: the block with base 0 and size `min c s` when `s > 0` and no
block when `s = 0`, leaving an empty buffer and the cursor on that block; hence
calling `first` again right after gives the same outcome. -/
theorem first_idempotent (c : Nat) (p : Provider) (it : YR_MEMORY_BLOCK_ITERATOR)
    (uninitSize uninitError : Nat) (hc : 0 < c) (hs : p.getSize < 2 ^ 64) :
    first c p it = first c p (freshIterator uninitSize uninitError) ∧
    (first c p it).result =
      (if p.getSize = 0 then none else some { base := 0, size := min c p.getSize }) ∧
    (first c p it).iterator =
      { context := { buffer := [], currBlock := { base := 0, size := min c p.getSize } }
        last_error := ERROR_SUCCESS } ∧
    first c p (first c p it).iterator = first c p it := by
  have hz : min c p.getSize = 0 ↔ p.getSize = 0 := by omega
  refine ⟨?_, ?_, ?_, ?_⟩
  · rw [first_eq c p it hs, first_eq c p _ hs]
  · rw [first_eq c p it hs]
    simp only [hz]
  · rw [first_eq c p it hs]
  · rw [first_eq c p _ hs, first_eq c p it hs]

/-- C7, at a concrete input: a 10-byte source, cap 4, and an iterator left at
the end of the source by an earlier iteration. -/
theorem first_idempotent_witness :
    first 4 (Provider.ofBytes [65, 65, 65, 66, 66, 66, 65, 65, 65, 66])
        { context := { buffer := [65, 66], currBlock := { base := 10, size := 0 } }
          last_error := 0 } =
      first 4 (Provider.ofBytes [65, 65, 65, 66, 66, 66, 65, 65, 65, 66])
        (freshIterator 7 3) ∧
    (first 4 (Provider.ofBytes [65, 65, 65, 66, 66, 66, 65, 65, 65, 66])
        { context := { buffer := [65, 66], currBlock := { base := 10, size := 0 } }
          last_error := 0 }).result = some { base := 0, size := 4 } :=
  have h := first_idempotent 4 (Provider.ofBytes [65, 65, 65, 66, 66, 66, 65, 65, 65, 66])
    { context := { buffer := [65, 66], currBlock := { base := 10, size := 0 } }
      last_error := 0 } 7 3 (by decide) (by simp [Provider.ofBytes])
  ⟨h.1, by rw [h.2.1]; rfl⟩

/-- C10 as stated fails: over a 4-byte source, after `first` yielded the block
`(base 0, size 4)`, the next window is empty (`0 + 4 = 4`) and `next` returns no
block, but the cursor base is 4 afterwards, not the 0 it was before. -/
theorem exhausted_next_moves_base :
    ((first chunkCap (Provider.ofBytes [1, 2, 3, 4]) (freshIterator 0 0)).iterator.context.currBlock
        = { base := 0, size := 4 }) ∧
    (next chunkCap (Provider.ofBytes [1, 2, 3, 4])
        (first chunkCap (Provider.ofBytes [1, 2, 3, 4]) (freshIterator 0 0)).iterator).result
        = none ∧
    (next chunkCap (Provider.ofBytes [1, 2, 3, 4])
        (first chunkCap (Provider.ofBytes [1, 2, 3, 4]) (freshIterator 0 0)).iterator
      ).iterator.context.currBlock.base = 4 ∧
    (next chunkCap (Provider.ofBytes [1, 2, 3, 4])
        (first chunkCap (Provider.ofBytes [1, 2, 3, 4]) (freshIterator 0 0)).iterator
      ).iterator.context.currBlock.base ≠
    (first chunkCap (Provider.ofBytes [1, 2, 3, 4]) (freshIterator 0 0)
      ).iterator.context.currBlock.base := by
  decide

/-- C10, amended: in every iterator state in which the next window is empty
(`base + size = s`, the stable size of the source), `next` returns no block,
moves the cursor base to `base + size = s`, sets the size to 0, leaves the buffer
as it was and sets `last_error` to `ERROR_SUCCESS`. -/
theorem next_exhausted (c : Nat) (p : Provider) (it : YR_MEMORY_BLOCK_ITERATOR)
    (hs : p.getSize < 2 ^ 64)
    (h : it.context.currBlock.base + it.context.currBlock.size = p.getSize) :
    (next c p it).result = none ∧
    (next c p it).iterator.context.currBlock.base =
      it.context.currBlock.base + it.context.currBlock.size ∧
    (next c p it).iterator.context.currBlock.size = 0 ∧
    (next c p it).iterator.context.buffer = it.context.buffer ∧
    (next c p it).iterator.last_error = ERROR_SUCCESS := by
  rw [next_of_le c p it hs (le_of_eq h)]
  simp [h]

/-- C10 amended, at a concrete input: a 4-byte source with the cursor on its only
block. -/
theorem next_exhausted_witness :
    (next chunkCap (Provider.ofBytes [1, 2, 3, 4])
        { context := { buffer := [1, 2, 3, 4], currBlock := { base := 0, size := 4 } }
          last_error := 0 }).result = none ∧
    (next chunkCap (Provider.ofBytes [1, 2, 3, 4])
        { context := { buffer := [1, 2, 3, 4], currBlock := { base := 0, size := 4 } }
          last_error := 0 }).iterator.context.currBlock.base = 0 + 4 :=
  have h := next_exhausted chunkCap (Provider.ofBytes [1, 2, 3, 4])
    { context := { buffer := [1, 2, 3, 4], currBlock := { base := 0, size := 4 } }
      last_error := 0 } (by simp [Provider.ofBytes]) (by decide)
  ⟨h.1, h.2.1⟩

/-- A call of `fetch_data` that has defined behaviour leaves the cursor where it
is. -/
theorem fetch_data_currBlock (c : Nat) (p : Provider) (blockContext : BlockContext)
    (it : YR_MEMORY_BLOCK_ITERATOR) (r : Call (List Nat))
    (h : fetch_data c p blockContext it = some r) :
    r.iterator.context.currBlock = it.context.currBlock := by
  unfold fetch_data at h
  cases blockContext with
  | indeterminate => simp at h
  | scanContext =>
    simp only at h
    split at h
    · simp only [Option.some.injEq] at h
      rw [← h]
    · simp only [Option.some.injEq] at h
      rw [← h]

/-- In every state in which the engine holds a yielded block `b`, the cursor is on
`b`, and `b` is a non-empty window that ends inside the source. -/
theorem yielded_inv (c : Nat) (p : Provider) (blockContext : BlockContext)
    (hs : p.getSize < 2 ^ 64) (it : YR_MEMORY_BLOCK_ITERATOR) (b : YR_MEMORY_BLOCK)
    (h : Yielded c p blockContext it b) :
    it.context.currBlock = b ∧ b.base + b.size ≤ p.getSize ∧
      b.size = min c (p.getSize - b.base) ∧ b.size ≠ 0 := by
  induction h with
  | first it b hb =>
    rw [first_eq c p it hs] at hb ⊢
    simp only at hb
    split at hb
    · simp at hb
    · rename_i hne
      simp only [Option.some.injEq] at hb
      subst hb
      refine ⟨rfl, ?_, ?_, hne⟩
      · simp only; omega
      · simp
  | next it b0 b _ hb ih =>
    obtain ⟨hcur, hle, _, _⟩ := ih
    have hle2 : it.context.currBlock.base + it.context.currBlock.size ≤ p.getSize := by
      rw [hcur]; exact hle
    rw [next_of_le c p it hs hle2] at hb ⊢
    simp only at hb
    split at hb
    · simp at hb
    · rename_i hne
      simp only [Option.some.injEq] at hb
      subst hb
      refine ⟨rfl, ?_, rfl, hne⟩
      simp only; omega
  | fetch it b r _ hr ih =>
    rw [fetch_data_currBlock c p blockContext it r hr]
    exact ih

/-- When `currBlock.context` does designate the scan context, `fetch_data` on a
yielded block `b` of a well-behaved provider issues one read, at `b.base` and of
`b.size` bytes, inside the source, and returns a buffer of `b.size` bytes that
holds the source bytes of `[b.base, b.base + b.size)`. -/
theorem fetch_data_of_yielded (c : Nat) (data : List Nat) (hs : data.length < 2 ^ 64)
    (it : YR_MEMORY_BLOCK_ITERATOR) (b : YR_MEMORY_BLOCK)
    (h : Yielded c (Provider.ofBytes data) BlockContext.scanContext it b) :
    ∃ r, fetch_data c (Provider.ofBytes data) BlockContext.scanContext it = some r ∧
      ProviderCall.reads r.calls = [ProviderCall.read b.base b.size] ∧
      b.base + b.size ≤ data.length ∧
      r.result = some ((data.drop b.base).take b.size) ∧
      r.iterator.context.buffer = (data.drop b.base).take b.size ∧
      ((data.drop b.base).take b.size).length = b.size := by
  obtain ⟨hcur, hle, hsize, hne⟩ :=
    yielded_inv c (Provider.ofBytes data) BlockContext.scanContext hs it b h
  have hsz : (Provider.ofBytes data).getSize = data.length := rfl
  rw [hsz] at hle hsize
  have hb : b.base % 2 ^ 64 = b.base := Nat.mod_eq_of_lt (by omega)
  have hn : min c ((data.length + 2 ^ 64 - b.base) % 2 ^ 64) = b.size := by
    have : (data.length + 2 ^ 64 - b.base) % 2 ^ 64 = data.length - b.base := by omega
    rw [this, hsize]
  have hlen : ((data.drop b.base).take b.size).length = b.size := by
    rw [List.length_take, List.length_drop]
    omega
  have hstored : List.take b.size (List.take b.size (List.drop b.base data)) =
      List.take b.size (List.drop b.base data) := by
    rw [List.take_take, min_self]
  have hrest : List.drop b.size (resize it.context.buffer b.size) = [] := by
    apply List.drop_eq_nil_of_le
    simp only [resize, List.length_append, List.length_take, List.length_replicate]
    omega
  have hfd : fetch_data c (Provider.ofBytes data) BlockContext.scanContext it =
      some { iterator :=
               { it with
                 context := { it.context with buffer := (data.drop b.base).take b.size } }
             calls := [ProviderCall.getSize, ProviderCall.read b.base b.size]
             result := some ((data.drop b.base).take b.size) } := by
    simp only [fetch_data, hcur, hsz, hb, hn, if_neg hne]
    simp only [Provider.ofBytes, hstored, hlen, hrest, List.append_nil]
  exact ⟨_, hfd, by simp [ProviderCall.reads], hle, rfl, rfl, hlen⟩

/-! ## The scan: lemmas -/

/-- The matches one callback invocation appends, as a list. -/
theorem scanCallback_eq (message : Nat) (rule : YR_RULE) (newMatches : List YaraMatch) :
    (scanCallback message rule newMatches).1 =
      newMatches ++ reported [EngineCall.callback message rule] := by
  have inner : ∀ (ms : List YR_MATCH) (acc : List YaraMatch),
      ms.foldl (fun acc m => acc ++ [YaraMatch.mk rule.identifier m.offset m.match_length]) acc =
      acc ++ ms.map fun m => YaraMatch.mk rule.identifier m.offset m.match_length := by
    intro ms
    induction ms with
    | nil => intro acc; simp
    | cons m ms ih => intro acc; simp [ih]
  have outer : ∀ (ss : List YR_STRING) (acc : List YaraMatch),
      ss.foldl (fun acc string => string.scanMatches.foldl
        (fun acc m => acc ++ [YaraMatch.mk rule.identifier m.offset m.match_length]) acc) acc =
      acc ++ ss.flatMap fun string => string.scanMatches.map fun m =>
        YaraMatch.mk rule.identifier m.offset m.match_length := by
    intro ss
    induction ss with
    | nil => intro acc; simp
    | cons s ss ih =>
      intro acc
      rw [List.foldl_cons, ih, inner, List.flatMap_cons, List.append_assoc]
  unfold scanCallback
  split
  · rename_i h
    simp [reported, h, outer]
  · rename_i h
    simp [reported, h]

/-- The reported matches of two runs in a row. -/
theorem reported_cons (call : EngineCall) (rest : List EngineCall) :
    reported (call :: rest) = reported [call] ++ reported rest := by
  cases call <;> simp [reported]

/-- A scan that has defined behaviour appends exactly the reported matches to
`newMatches`. -/
theorem scan_newMatches (c : Nat) (p : Provider) (blockContext : BlockContext) :
    ∀ (engine : List EngineCall) (st st2 : ScanState),
      yr_rules_scan_mem_blocks c p blockContext engine st = some st2 →
      st2.newMatches = st.newMatches ++ reported engine := by
  intro engine
  induction engine with
  | nil =>
    intro st st2 h
    simp only [yr_rules_scan_mem_blocks, Option.some.injEq] at h
    simp [← h, reported]
  | cons call rest ih =>
    intro st st2 h
    simp only [yr_rules_scan_mem_blocks] at h
    cases hstep : engineStep c p blockContext st call with
    | none => simp [hstep] at h
    | some st1 =>
      simp only [hstep] at h
      have hrest := ih st1 st2 h
      have h1 : st1.newMatches = st.newMatches ++ reported [call] := by
        cases call with
        | first =>
          simp only [engineStep, Option.some.injEq] at hstep
          simp [← hstep, reported]
        | next =>
          simp only [engineStep, Option.some.injEq] at hstep
          simp [← hstep, reported]
        | file_size =>
          simp only [engineStep, Option.some.injEq] at hstep
          simp [← hstep, reported]
        | fetch_data =>
          simp only [engineStep, Option.map_eq_some'] at hstep
          obtain ⟨r, _, hr⟩ := hstep
          simp [← hr, reported]
        | callback message rule =>
          simp only [engineStep, Option.some.injEq] at hstep
          rw [← hstep]
          exact scanCallback_eq message rule st.newMatches
      rw [hrest, h1, reported_cons call rest, List.append_assoc]

/-- A scan has defined behaviour when `currBlock.context` designates the scan
context, or when the engine never calls `fetch_data`. -/
theorem scan_defined (c : Nat) (p : Provider) (blockContext : BlockContext) :
    ∀ (engine : List EngineCall) (st : ScanState),
      (blockContext = BlockContext.scanContext ∨ EngineCall.fetch_data ∉ engine) →
      ∃ st2, yr_rules_scan_mem_blocks c p blockContext engine st = some st2 := by
  intro engine
  induction engine with
  | nil =>
    intro st _
    exact ⟨st, rfl⟩
  | cons call rest ih =>
    intro st hdef
    have hrest : blockContext = BlockContext.scanContext ∨ EngineCall.fetch_data ∉ rest := by
      rcases hdef with h | h
      · exact Or.inl h
      · exact Or.inr fun hm => h (List.mem_cons_of_mem _ hm)
    have hstep : ∃ st1, engineStep c p blockContext st call = some st1 := by
      cases call with
      | first => exact ⟨_, rfl⟩
      | next => exact ⟨_, rfl⟩
      | file_size => exact ⟨_, rfl⟩
      | callback message rule => exact ⟨_, rfl⟩
      | fetch_data =>
        rcases hdef with h | h
        · subst h
          simp only [engineStep, fetch_data]
          split <;> exact ⟨_, rfl⟩
        · exact absurd (List.mem_cons_self _ _) h
    obtain ⟨st1, h1⟩ := hstep
    obtain ⟨st2, h2⟩ := ih st1 hrest
    exact ⟨st2, by simp only [yr_rules_scan_mem_blocks, h1, h2]⟩

/-- The outcome of `applyRules` once the rule file is open and compiled and the
scan has defined behaviour. -/
theorem applyRules_scanned (c : Nat) (env : Env) (v : ViewYara) (path : String)
    (hsel : v.m_rules[v.m_selectedRule]? = some path)
    (hopen : env.fopen path = true) (hcomp : env.yr_compiler_add_file path = 0)
    (hdef : env.blockContext = BlockContext.scanContext ∨ EngineCall.fetch_data ∉ env.engine) :
    ∃ calls, applyRules c env v =
      some { view := { v with m_matches := reported env.engine }
             calls := calls
             scanned := true } := by
  obtain ⟨st2, h2⟩ := scan_defined c env.provider env.blockContext env.engine
    { iterator := freshIterator env.uninitSize env.uninitError, newMatches := [], calls := [] }
    hdef
  have hm := scan_newMatches c env.provider env.blockContext env.engine _ st2 h2
  refine ⟨st2.calls, ?_⟩
  simp only [applyRules, hsel, hopen, hcomp, h2]
  simp [hm]

/-! ## The claims on `fetch_data`, the scan and the rule catalogue -/

/-- C2, evaluated on the code: over the 3-byte source `[65, 65, 65]`, `first`
yields the block `(base 0, size 3)`, and the `fetch_data` call on that block goes
through `currBlock.context`, which the source never assigns: the behaviour of
the call is undefined, and so is that of an `applyRules` run whose engine makes
it. -/
theorem fetch_data_undefined :
    (first chunkCap (Provider.ofBytes [65, 65, 65]) (freshIterator 0 0)).result =
      some { base := 0, size := 3 } ∧
    fetch_data chunkCap (Provider.ofBytes [65, 65, 65]) BlockContext.indeterminate
      (first chunkCap (Provider.ofBytes [65, 65, 65]) (freshIterator 0 0)).iterator = none ∧
    applyRules chunkCap
      (exampleEnv (Provider.ofBytes [65, 65, 65]) BlockContext.indeterminate
        [EngineCall.first, EngineCall.fetch_data] 0)
      exampleView = none := by
  refine ⟨by decide, rfl, by decide⟩

/-- C3, evaluated on the code: for a match the engine reports in the block of base
`0xFFFFF` at block-relative position 1, the callback records the address 1, not
the absolute address `0xFFFFF + 1`; and in the spec's scenario (source
`"AAABBBAAAB"`, cap 4, a match reported in the block of base 4 at relative
position 2) the match list ends as `(0, 3), (2, 3)`, not `(0, 3), (6, 3)`. -/
theorem scanCallback_records_relative_offset :
    (scanCallback CALLBACK_MSG_RULE_MATCHING
      { identifier := "AAA"
        strings := [{ scanMatches := [{ base := 0xFFFFF, offset := 1, match_length := 3 }] }] }
      []).1 = [{ identifier := "AAA", address := 1, size := 3 }] ∧
    (1 : Nat) ≠ 0xFFFFF + 1 ∧
    (applyRules 4 (exampleEnv (Provider.ofBytes sourceAAAB) BlockContext.scanContext scenarioRun 0)
      exampleView).map (fun out => out.view.m_matches) =
      some [{ identifier := "AAA", address := 0, size := 3 },
            { identifier := "AAA", address := 2, size := 3 }] := by
  refine ⟨by decide, by decide, by decide⟩

/-- When the selected rule file opens and compiles and the scan has defined
behaviour (the block context designates the scan context, or the engine fetches
no block data), `applyRules` ends with the match list equal to the reported
`(rule identifier, offset, length)` tuples in report order, nothing added,
removed or reordered and no prior entry kept; the rule list and the selection
are unchanged. -/
theorem applyRules_of_defined (c : Nat) (env : Env) (v : ViewYara) (path : String)
    (hsel : v.m_rules[v.m_selectedRule]? = some path)
    (hopen : env.fopen path = true) (hcomp : env.yr_compiler_add_file path = 0)
    (hdef : env.blockContext = BlockContext.scanContext ∨ EngineCall.fetch_data ∉ env.engine) :
    ∃ out, applyRules c env v = some out ∧ out.scanned = true ∧
      out.view.m_matches = reported env.engine ∧
      out.view.m_rules = v.m_rules ∧ out.view.m_selectedRule = v.m_selectedRule := by
  obtain ⟨calls, h⟩ := applyRules_scanned c env v path hsel hopen hcomp hdef
  exact ⟨_, h, rfl, rfl, rfl, rfl⟩

/-- A scan in which the engine calls `fetch_data` while `currBlock.context` does
not designate the scan context has no defined behaviour. -/
theorem scan_undefined (c : Nat) (p : Provider) :
    ∀ (engine : List EngineCall) (st : ScanState),
      EngineCall.fetch_data ∈ engine →
      yr_rules_scan_mem_blocks c p BlockContext.indeterminate engine st = none := by
  intro engine
  induction engine with
  | nil =>
    intro st h
    simp at h
  | cons call rest ih =>
    intro st h
    cases call with
    | fetch_data => simp [yr_rules_scan_mem_blocks, engineStep, fetch_data]
    | first =>
      have hrest : EngineCall.fetch_data ∈ rest := by simpa using h
      simp only [yr_rules_scan_mem_blocks, engineStep]
      exact ih _ hrest
    | next =>
      have hrest : EngineCall.fetch_data ∈ rest := by simpa using h
      simp only [yr_rules_scan_mem_blocks, engineStep]
      exact ih _ hrest
    | file_size =>
      have hrest : EngineCall.fetch_data ∈ rest := by simpa using h
      simp only [yr_rules_scan_mem_blocks, engineStep]
      exact ih _ hrest
    | callback message rule =>
      have hrest : EngineCall.fetch_data ∈ rest := by simpa using h
      simp only [yr_rules_scan_mem_blocks, engineStep]
      exact ih _ hrest

/-- With the block context left indeterminate, as the source leaves it, every
`applyRules` run whose rule file opens and compiles and whose engine fetches the
data of a block has no defined behaviour, whatever matches the engine reports. -/
theorem applyRules_none_of_fetch (c : Nat) (env : Env) (v : ViewYara) (path : String)
    (hsel : v.m_rules[v.m_selectedRule]? = some path)
    (hopen : env.fopen path = true) (hcomp : env.yr_compiler_add_file path = 0)
    (hctx : env.blockContext = BlockContext.indeterminate)
    (hfetch : EngineCall.fetch_data ∈ env.engine) :
    applyRules c env v = none := by
  have h := scan_undefined c env.provider env.engine
    { iterator := freshIterator env.uninitSize env.uninitError, newMatches := [], calls := [] }
    hfetch
  simp only [applyRules, hsel, hopen, hcomp, hctx, h]
  simp

/-- C4, evaluated on the code: the rule file opens and compiles and the engine
runs over the 10-byte source, fetches the data of the first block and reports
`("ruleA", 10, 4)` and then `("ruleB", 2, 8)`. The `fetch_data` call goes through
`currBlock.context`, which the source never assigns, so the behaviour of the run
is undefined: it has no outcome whose match list is the two reported tuples. -/
theorem fetching_run_undefined :
    reported ruleABRun =
      [{ identifier := "ruleA", address := 10, size := 4 },
       { identifier := "ruleB", address := 2, size := 8 }] ∧
    EngineCall.fetch_data ∈ ruleABRun ∧
    applyRules chunkCap
      (exampleEnv (Provider.ofBytes sourceAAAB) BlockContext.indeterminate ruleABRun 0)
      exampleView = none ∧
    ¬ ∃ out, applyRules chunkCap
        (exampleEnv (Provider.ofBytes sourceAAAB) BlockContext.indeterminate ruleABRun 0)
        exampleView = some out ∧ out.view.m_matches = reported ruleABRun := by
  have hnone : applyRules chunkCap
      (exampleEnv (Provider.ofBytes sourceAAAB) BlockContext.indeterminate ruleABRun 0)
      exampleView = none := by decide
  refine ⟨by decide, by decide, hnone, ?_⟩
  rintro ⟨out, hout, _⟩
  rw [hnone] at hout
  exact Option.noConfusion hout

/-- C5 as stated fails. In the first run the provider delivers nothing for the
second block and the scan returns a failure status after a match was reported in
the first block; in the second run the engine reports a match and returns a
failure status. Both runs end with the reported match in the match list. -/
theorem applyRules_failure_keeps_matches :
    failingProvider.read 0xFFFFF 4 = [] ∧
    (exampleEnv failingProvider BlockContext.scanContext twoBlockRun 1).scanResult
      ≠ ERROR_SUCCESS ∧
    (∃ out, applyRules chunkCap (exampleEnv failingProvider BlockContext.scanContext twoBlockRun 1)
        exampleView = some out ∧
      out.view.m_matches = [{ identifier := "r", address := 0, size := 3 }] ∧
      out.view.m_matches ≠ []) ∧
    (exampleEnv failingProvider BlockContext.indeterminate noFetchRun 1).scanResult
      ≠ ERROR_SUCCESS ∧
    (∃ out, applyRules chunkCap (exampleEnv failingProvider BlockContext.indeterminate noFetchRun 1)
        exampleView = some out ∧
      out.view.m_matches = [{ identifier := "r", address := 0, size := 3 }] ∧
      out.view.m_matches ≠ []) := by
  have hr1 : reported twoBlockRun = [{ identifier := "r", address := 0, size := 3 }] := by
    decide
  have hr2 : reported noFetchRun = [{ identifier := "r", address := 0, size := 3 }] := by
    decide
  have hn1 : reported twoBlockRun ≠ [] := by decide
  have hn2 : reported noFetchRun ≠ [] := by decide
  refine ⟨by decide, by decide, ?_, by decide, ?_⟩
  · obtain ⟨calls, h⟩ := applyRules_scanned chunkCap
      (exampleEnv failingProvider BlockContext.scanContext twoBlockRun 1) exampleView
      "yara/a.yar" (by decide) rfl rfl (Or.inl rfl)
    exact ⟨_, h, hr1, hn1⟩
  · obtain ⟨calls, h⟩ := applyRules_scanned chunkCap
      (exampleEnv failingProvider BlockContext.indeterminate noFetchRun 1) exampleView
      "yara/a.yar" (by decide) rfl rfl (Or.inr (by decide))
    exact ⟨_, h, hr2, hn2⟩

/-- C5, amended: for every `applyRules` run whose rule file opens and compiles
(and whose scan has defined behaviour), whatever the provider reads deliver and
whatever status the scan returns, the run ends with the match list holding
exactly the matches reported through the callback, in report order; when some
match was reported the list is not empty: matches reported before a failure are
kept. -/
theorem applyRules_keeps_reported (c : Nat) (env : Env) (v : ViewYara) (path : String)
    (provider : Provider) (status : Nat)
    (hsel : v.m_rules[v.m_selectedRule]? = some path)
    (hopen : env.fopen path = true) (hcomp : env.yr_compiler_add_file path = 0)
    (hdef : env.blockContext = BlockContext.scanContext ∨ EngineCall.fetch_data ∉ env.engine)
    (hrep : reported env.engine ≠ []) :
    ∃ out, applyRules c { env with provider := provider, scanResult := status } v = some out ∧
      out.view.m_matches = reported env.engine ∧ out.view.m_matches ≠ [] := by
  obtain ⟨calls, h⟩ := applyRules_scanned c
    { env with provider := provider, scanResult := status } v path hsel hopen hcomp hdef
  exact ⟨_, h, rfl, hrep⟩

/-- C5 amended, at a concrete input: the two-block run over the provider whose
second read delivers nothing, with the failure status 1. -/
theorem applyRules_keeps_reported_witness :
    ∃ out, applyRules chunkCap
        { exampleEnv (Provider.ofBytes sourceAAAB) BlockContext.scanContext twoBlockRun 0 with
          provider := failingProvider, scanResult := 1 }
        exampleView = some out ∧
      out.view.m_matches = reported twoBlockRun ∧ out.view.m_matches ≠ [] :=
  applyRules_keeps_reported chunkCap
    (exampleEnv (Provider.ofBytes sourceAAAB) BlockContext.scanContext twoBlockRun 0)
    exampleView "yara/a.yar" failingProvider 1 (by decide) rfl rfl (Or.inl rfl) (by decide)

/-- C6: when the selected rule file opens and `yr_compiler_add_file` returns
non-zero, `applyRules` returns with no provider call issued (no `getSize`, no
`read`), without entering the scan, and with an empty match list, whatever the
list held before; the rule list and the selection are unchanged. -/
theorem applyRules_compile_failure (c : Nat) (env : Env) (v : ViewYara) (path : String)
    (hsel : v.m_rules[v.m_selectedRule]? = some path)
    (hopen : env.fopen path = true) (hcomp : env.yr_compiler_add_file path ≠ 0) :
    applyRules c env v =
      some { view := { v with m_matches := [] }, calls := [], scanned := false } := by
  simp [applyRules, hsel, hopen, hcomp]

/-- C6, at a concrete input: a rule file with one compile error, on a view that
holds an older match. -/
theorem applyRules_compile_failure_witness :
    applyRules chunkCap compileFailureEnv exampleView =
      some { view := { m_rules := ["yara/a.yar"], m_selectedRule := 0, m_matches := [] }
             calls := []
             scanned := false } :=
  applyRules_compile_failure chunkCap compileFailureEnv exampleView "yara/a.yar"
    (by decide) rfl (by decide)

/-- The loop of `reloadRules` appends the paths of the regular files, in
enumeration order, and touches nothing else. -/
theorem reloadRules_loop (entries : List directory_entry) :
    ∀ v : ViewYara,
      entries.foldl
        (fun v entry =>
          if entry.is_regular_file then { v with m_rules := v.m_rules ++ [entry.path] } else v)
        v =
      { v with
        m_rules := v.m_rules ++
          (entries.filter fun entry => entry.is_regular_file).map fun entry => entry.path } := by
  induction entries with
  | nil => intro v; simp
  | cons entry rest ih =>
    intro v
    rw [List.foldl_cons, ih]
    cases hreg : entry.is_regular_file <;> simp [hreg]

/-- C8: for every prior content of the view and every filesystem state, after
`reloadRules` the rule list is empty when `./yara` does not exist, and otherwise
is exactly the list of the paths of the entries of `yara` that are regular files,
in enumeration order; no prior entry is kept, no other entry is listed, and the
selection and the match list are not touched. -/
theorem reloadRules_rules (fs : Filesystem) (v : ViewYara) :
    (reloadRules fs v).view.m_rules =
      (if fs.yaraExists then
        (fs.entries.filter fun entry => entry.is_regular_file).map fun entry => entry.path
       else []) ∧
    (reloadRules fs v).view.m_selectedRule = v.m_selectedRule ∧
    (reloadRules fs v).view.m_matches = v.m_matches := by
  unfold reloadRules
  cases hex : fs.yaraExists <;> simp [reloadRules_loop]

/-- C9, evaluated on the code: with two rule files at construction, the second
one selected in the combo box, then `yara/b.yar` removed and the rules reloaded,
the view holds one rule and the selection 1: the rule list is not empty and the
selected index is not below the number of rules, so `m_rules[m_selectedRule]` is
out of range and `applyRules` has no defined behaviour. -/
theorem selection_out_of_range :
    Reachable (reloadRules oneRule { (construct twoRules).view with m_selectedRule := 1 }).view ∧
    (reloadRules oneRule { (construct twoRules).view with m_selectedRule := 1 }).view =
      { m_rules := ["yara/a.yar"], m_selectedRule := 1, m_matches := [] } ∧
    (reloadRules oneRule { (construct twoRules).view with m_selectedRule := 1 }).view.m_rules
      ≠ [] ∧
    ¬ (reloadRules oneRule { (construct twoRules).view with m_selectedRule := 1 }
        ).view.m_selectedRule <
      (reloadRules oneRule { (construct twoRules).view with m_selectedRule := 1 }
        ).view.m_rules.length ∧
    ∀ (c : Nat) (env : Env),
      applyRules c env
        (reloadRules oneRule { (construct twoRules).view with m_selectedRule := 1 }).view
        = none := by
  refine ⟨?_, by decide, by decide, by decide, ?_⟩
  · exact Reachable.reload oneRule _
      (Reachable.select _ 1 (Reachable.construct twoRules) (by decide))
  · intro c env
    rfl

end hex
